import Mathlib

/-!
Verification development for the wireguard-nt rust wrapper.

The crate root (src/lib.rs) supplies the library-loader entry points
(`load`, `load_from_path`, `load_from_library`), the `MAX_POOL` constant and
the public re-exports.  The collaborating modules (`adapter`, `log`, `util`,
and the generated `wireguard_nt_raw` function table) are not part of the
excerpt, so the adapter lifecycle, the binary configuration codec and the
driver-facing operations are modelled from the specification document and
stated against those models; definitions taken directly from src/lib.rs say
so in their doc comments.
-/

namespace WireguardNt

/-! ## Binary configuration codec: data model

Modelled from the spec: the `adapter`/`util` modules holding `Configuration`,
`Peer`, `AllowedIp` and the encode/decode routines are not under src; the
shapes below follow spec sections 3 and 4.3. -/

/-- Modelled from the spec: address family of an IP address (32-bit maximal
prefix length for IPv4, 128 for IPv6). -/
inductive AddressFamily where
  | v4
  | v6
deriving DecidableEq, Repr

/-- Modelled from the spec: the address-family-specific maximal prefix length
(32 for IPv4, 128 for IPv6). -/
def familyMaxCidr : AddressFamily → Nat
  | .v4 => 32
  | .v6 => 128

/-- Modelled from the spec: the number of address bytes an address of this
family carries (4 for IPv4, 16 for IPv6). -/
def addrLen : AddressFamily → Nat
  | .v4 => 4
  | .v6 => 16

/-- Modelled from the spec: the on-wire address-family tag byte
(the AF_INET / AF_INET6 constants of the driver ABI). -/
def familyCode : AddressFamily → Nat
  | .v4 => 2
  | .v6 => 23

/-- Modelled from the spec: an AllowedIP record — an IP address plus a prefix
length (`cidr`); validity requires `cidr` at most the family maximum. -/
structure AllowedIp where
  family : AddressFamily
  address : List Nat
  cidr : Nat
deriving DecidableEq, Repr

/-- Modelled from the spec: a peer endpoint address (family, address bytes,
port). -/
structure Endpoint where
  family : AddressFamily
  address : List Nat
  port : Nat
deriving DecidableEq, Repr

/-- Modelled from the spec: a Peer — public key (fixed-size byte array),
optional pre-shared key, optional persistent-keepalive interval, optional
endpoint, and an ordered list of AllowedIP ranges. -/
structure Peer where
  publicKey : List Nat
  presharedKey : Option (List Nat)
  keepalive : Option Nat
  endpoint : Option Endpoint
  allowedIps : List AllowedIp
deriving DecidableEq, Repr

/-- Modelled from the spec: a Configuration — interface-level settings
(optional listen port, optional private key) plus an ordered list of peers. -/
structure Configuration where
  listenPort : Option Nat
  privateKey : Option (List Nat)
  peers : List Peer
deriving DecidableEq, Repr

/-- Modelled from the spec: codec failures — truncated/corrupt buffer on
decode, malformed configuration (invalid prefix length, wrong key or address
size) on encode. -/
inductive CodecError where
  | truncatedBuffer
  | invalidCidr
  | invalidFamily
  | invalidKeyLength
  | invalidAddressLength
deriving DecidableEq, Repr

/-! ## Byte-level helpers -/

/-- Little-endian encoding of a 16-bit value as two bytes. -/
def le16 (n : Nat) : List Nat := [n % 256, n / 256 % 256]

/-- Little-endian encoding of a 32-bit value as four bytes. -/
def le32 (n : Nat) : List Nat :=
  [n % 256, n / 256 % 256, n / 65536 % 256, n / 16777216 % 256]

/-- Read back a 16-bit little-endian value from two bytes. -/
def rd16 (b0 b1 : Nat) : Nat := b0 + 256 * b1

/-- Read back a 32-bit little-endian value from four bytes. -/
def rd32 (b0 b1 b2 b3 : Nat) : Nat :=
  b0 + 256 * b1 + 65536 * b2 + 16777216 * b3

/-- Presence flag bit of an optional field. -/
def optFlag : Option α → Nat
  | none => 0
  | some _ => 1

/-! ## Encoder

Modelled from the spec (4.3, write path): one contiguous buffer — fixed-size
interface header (flags, listen port, private-key material, peer count), then
for each peer in input order a fixed-size peer header (flags, public key,
preshared key, keepalive, endpoint, allowed-IP count) followed by that many
fixed-size allowed-IP records (family, address, prefix length).  A malformed
configuration (invalid prefix length, wrong key/address size) is rejected
with a codec error instead of being encoded. -/

/-- Modelled from the spec: encode one fixed-size (18-byte) allowed-IP record:
family tag, 16 address bytes (IPv4 zero-padded), prefix length.  Rejects a
prefix length above the family maximum. -/
def encodeAllowedIp (ip : AllowedIp) : Except CodecError (List Nat) :=
  if familyMaxCidr ip.family < ip.cidr then .error .invalidCidr
  else if ip.address.length ≠ addrLen ip.family then .error .invalidAddressLength
  else .ok (familyCode ip.family ::
    (ip.address ++ List.replicate (16 - addrLen ip.family) 0) ++ [ip.cidr])

/-- Modelled from the spec: encode the allowed-IP records of one peer in
input order. -/
def encodeAllowedIps : List AllowedIp → Except CodecError (List Nat)
  | [] => .ok []
  | ip :: rest =>
    match encodeAllowedIp ip with
    | .error e => .error e
    | .ok r =>
      match encodeAllowedIps rest with
      | .error e => .error e
      | .ok rs => .ok (r ++ rs)

/-- Modelled from the spec: encode the fixed-size (19-byte) endpoint field of
a peer header: family tag, 16 address bytes, 2 port bytes; all zero when the
endpoint is absent. -/
def encodeEndpoint : Option Endpoint → Except CodecError (List Nat)
  | none => .ok (List.replicate 19 0)
  | some e =>
    if e.address.length ≠ addrLen e.family then .error .invalidAddressLength
    else .ok (familyCode e.family ::
      (e.address ++ List.replicate (16 - addrLen e.family) 0) ++ le16 e.port)

/-- Modelled from the spec: encode one peer — fixed-size (90-byte) peer header
(flags byte, 32-byte public key, 32-byte preshared key, 2-byte keepalive,
19-byte endpoint, 4-byte allowed-IP count) followed by the allowed-IP
records. -/
def encodePeer (p : Peer) : Except CodecError (List Nat) :=
  if p.publicKey.length ≠ 32 then .error .invalidKeyLength
  else
    match p.presharedKey with
    | some k =>
      if k.length ≠ 32 then .error .invalidKeyLength
      else
        match encodeEndpoint p.endpoint with
        | .error e => .error e
        | .ok ep =>
          match encodeAllowedIps p.allowedIps with
          | .error e => .error e
          | .ok ips => .ok
            ((optFlag p.presharedKey + 2 * optFlag p.keepalive +
              4 * optFlag p.endpoint) ::
             p.publicKey ++ k ++ le16 (p.keepalive.getD 0) ++ ep ++
             le32 p.allowedIps.length ++ ips)
    | none =>
      match encodeEndpoint p.endpoint with
      | .error e => .error e
      | .ok ep =>
        match encodeAllowedIps p.allowedIps with
        | .error e => .error e
        | .ok ips => .ok
          ((optFlag p.presharedKey + 2 * optFlag p.keepalive +
            4 * optFlag p.endpoint) ::
           p.publicKey ++ List.replicate 32 0 ++ le16 (p.keepalive.getD 0) ++
           ep ++ le32 p.allowedIps.length ++ ips)

/-- Modelled from the spec: encode the peers of a configuration in input
order. -/
def encodePeers : List Peer → Except CodecError (List Nat)
  | [] => .ok []
  | p :: rest =>
    match encodePeer p with
    | .error e => .error e
    | .ok r =>
      match encodePeers rest with
      | .error e => .error e
      | .ok rs => .ok (r ++ rs)

/-- Modelled from the spec: encode a whole configuration — fixed-size
(39-byte) interface header (flags byte, 2-byte listen port, 32-byte private
key, 4-byte peer count) followed by the encoded peers. -/
def encodeConfig (c : Configuration) : Except CodecError (List Nat) :=
  match c.privateKey with
  | some k =>
    if k.length ≠ 32 then .error .invalidKeyLength
    else
      match encodePeers c.peers with
      | .error e => .error e
      | .ok ps => .ok
        ((optFlag c.listenPort + 2 * optFlag c.privateKey) ::
         le16 (c.listenPort.getD 0) ++ k ++ le32 c.peers.length ++ ps)
  | none =>
    match encodePeers c.peers with
    | .error e => .error e
    | .ok ps => .ok
      ((optFlag c.listenPort + 2 * optFlag c.privateKey) ::
       le16 (c.listenPort.getD 0) ++ List.replicate 32 0 ++
       le32 c.peers.length ++ ps)

/-! ## Decoder

Modelled from the spec (4.3, read path): walk the buffer using the same
fixed-size header/record layout, reconstructing the structures in original
buffer order; when the buffer length is inconsistent with the declared
peer/allowed-IP counts, fail with a truncated/corrupt-buffer error rather
than reading out of bounds.  Optional fields are populated only when their
presence-flag bit is set. -/

/-- Take one byte off the front of the buffer; a truncated-buffer error when
the buffer is empty. -/
def take1 : List Nat → Except CodecError (Nat × List Nat)
  | [] => .error .truncatedBuffer
  | b :: rest => .ok (b, rest)

/-- Take `n` bytes off the front of the buffer; a truncated-buffer error when
fewer remain. -/
def takeN : Nat → List Nat → Except CodecError (List Nat × List Nat)
  | 0, buf => .ok ([], buf)
  | _ + 1, [] => .error .truncatedBuffer
  | n + 1, b :: buf =>
    match takeN n buf with
    | .error e => .error e
    | .ok (xs, rest) => .ok (b :: xs, rest)

/-- Decode an address-family tag byte; any other value marks a corrupt
buffer. -/
def decodeFamily (n : Nat) : Except CodecError AddressFamily :=
  if n = familyCode .v4 then .ok .v4
  else if n = familyCode .v6 then .ok .v6
  else .error .invalidFamily

/-- Modelled from the spec: decode one fixed-size (18-byte) allowed-IP record,
returning it together with the unconsumed tail. -/
def decodeAllowedIp (buf : List Nat) :
    Except CodecError (AllowedIp × List Nat) :=
  match take1 buf with
  | .error e => .error e
  | .ok (famB, b1) =>
    match decodeFamily famB with
    | .error e => .error e
    | .ok fam =>
      match takeN 16 b1 with
      | .error e => .error e
      | .ok (addr16, b2) =>
        match take1 b2 with
        | .error e => .error e
        | .ok (cidr, b3) =>
          if familyMaxCidr fam < cidr then .error .invalidCidr
          else .ok (⟨fam, addr16.take (addrLen fam), cidr⟩, b3)

/-- Modelled from the spec: decode the declared number of allowed-IP records
in buffer order. -/
def decodeAllowedIps : Nat → List Nat →
    Except CodecError (List AllowedIp × List Nat)
  | 0, buf => .ok ([], buf)
  | n + 1, buf =>
    match decodeAllowedIp buf with
    | .error e => .error e
    | .ok (ip, b1) =>
      match decodeAllowedIps n b1 with
      | .error e => .error e
      | .ok (ips, b2) => .ok (ip :: ips, b2)

/-- Modelled from the spec: decode the fixed-size (19-byte) endpoint field of
a peer header; yields the endpoint only when its presence flag was set. -/
def decodeEndpoint (present : Bool) (buf : List Nat) :
    Except CodecError (Option Endpoint × List Nat) :=
  match take1 buf with
  | .error e => .error e
  | .ok (famB, b1) =>
    match takeN 16 b1 with
    | .error e => .error e
    | .ok (addr16, b2) =>
      match take1 b2 with
      | .error e => .error e
      | .ok (p0, b3) =>
        match take1 b3 with
        | .error e => .error e
        | .ok (p1, b4) =>
          if present then
            match decodeFamily famB with
            | .error e => .error e
            | .ok fam =>
              .ok (some ⟨fam, addr16.take (addrLen fam), rd16 p0 p1⟩, b4)
          else .ok (none, b4)

/-- Modelled from the spec: decode one peer — the fixed-size (90-byte) peer
header followed by the declared number of allowed-IP records; optional fields
are populated only when their flag bit is set. -/
def decodePeer (buf : List Nat) : Except CodecError (Peer × List Nat) :=
  match take1 buf with
  | .error e => .error e
  | .ok (flags, b1) =>
    match takeN 32 b1 with
    | .error e => .error e
    | .ok (pk, b2) =>
      match takeN 32 b2 with
      | .error e => .error e
      | .ok (psk, b3) =>
        match take1 b3 with
        | .error e => .error e
        | .ok (k0, b4) =>
          match take1 b4 with
          | .error e => .error e
          | .ok (k1, b5) =>
            match decodeEndpoint (flags / 4 % 2 = 1) b5 with
            | .error e => .error e
            | .ok (ep, b6) =>
              match take1 b6 with
              | .error e => .error e
              | .ok (c0, b7) =>
                match take1 b7 with
                | .error e => .error e
                | .ok (c1, b8) =>
                  match take1 b8 with
                  | .error e => .error e
                  | .ok (c2, b9) =>
                    match take1 b9 with
                    | .error e => .error e
                    | .ok (c3, b10) =>
                      match decodeAllowedIps (rd32 c0 c1 c2 c3) b10 with
                      | .error e => .error e
                      | .ok (ips, b11) => .ok
                        ({ publicKey := pk
                         , presharedKey :=
                             if flags % 2 = 1 then some psk else none
                         , keepalive :=
                             if flags / 2 % 2 = 1 then some (rd16 k0 k1)
                             else none
                         , endpoint := ep
                         , allowedIps := ips }, b11)

/-- Modelled from the spec: decode the declared number of peers in buffer
order. -/
def decodePeers : Nat → List Nat → Except CodecError (List Peer × List Nat)
  | 0, buf => .ok ([], buf)
  | n + 1, buf =>
    match decodePeer buf with
    | .error e => .error e
    | .ok (p, b1) =>
      match decodePeers n b1 with
      | .error e => .error e
      | .ok (ps, b2) => .ok (p :: ps, b2)

/-- Modelled from the spec: decode a whole configuration buffer — the
fixed-size (39-byte) interface header followed by the declared number of
peers. -/
def decodeConfig (buf : List Nat) : Except CodecError Configuration :=
  match take1 buf with
  | .error e => .error e
  | .ok (flags, b1) =>
    match take1 b1 with
    | .error e => .error e
    | .ok (l0, b2) =>
      match take1 b2 with
      | .error e => .error e
      | .ok (l1, b3) =>
        match takeN 32 b3 with
        | .error e => .error e
        | .ok (pk, b4) =>
          match take1 b4 with
          | .error e => .error e
          | .ok (c0, b5) =>
            match take1 b5 with
            | .error e => .error e
            | .ok (c1, b6) =>
              match take1 b6 with
              | .error e => .error e
              | .ok (c2, b7) =>
                match take1 b7 with
                | .error e => .error e
                | .ok (c3, b8) =>
                  match decodePeers (rd32 c0 c1 c2 c3) b8 with
                  | .error e => .error e
                  | .ok (ps, _) => .ok
                    { listenPort :=
                        if flags % 2 = 1 then some (rd16 l0 l1) else none
                    , privateKey :=
                        if flags / 2 % 2 = 1 then some pk else none
                    , peers := ps }

/-! ## Valid field ranges

The valid ranges of spec section 8 (round-trip property): prefix lengths
within family bounds, fixed-size (hence non-empty) keys, 16-bit ports and
keepalive, counts within the 32-bit count fields. -/

/-- An allowed-IP record is in valid ranges: prefix length within the family
bound, address of the family's size. -/
def AllowedIp.wf (ip : AllowedIp) : Bool :=
  decide (ip.cidr ≤ familyMaxCidr ip.family) &&
  decide (ip.address.length = addrLen ip.family)

/-- An endpoint is in valid ranges: address of the family's size, 16-bit
port. -/
def Endpoint.wf (e : Endpoint) : Bool :=
  decide (e.address.length = addrLen e.family) && decide (e.port < 65536)

/-- A peer is in valid ranges: 32-byte (hence non-empty) keys, 16-bit
keepalive, well-formed endpoint, allowed-IP count within the 32-bit count
field, every allowed-IP record in range. -/
def Peer.wf (p : Peer) : Bool :=
  decide (p.publicKey.length = 32) &&
  p.presharedKey.all (fun k => decide (k.length = 32)) &&
  p.keepalive.all (fun n => decide (n < 65536)) &&
  p.endpoint.all Endpoint.wf &&
  decide (p.allowedIps.length < 4294967296) &&
  p.allowedIps.all AllowedIp.wf

/-- A configuration is in valid ranges: 16-bit listen port, 32-byte private
key, peer count within the 32-bit count field, every peer in range. -/
def Configuration.wf (c : Configuration) : Bool :=
  c.listenPort.all (fun n => decide (n < 65536)) &&
  c.privateKey.all (fun k => decide (k.length = 32)) &&
  decide (c.peers.length < 4294967296) &&
  c.peers.all Peer.wf

/-- The peer count declared in a configuration buffer's fixed-size interface
header: the four count bytes that follow the flags byte, the two listen-port
bytes and the 32 private-key bytes; `none` when the buffer is too short to
hold the header. -/
def declaredPeerCount (buf : List Nat) : Option Nat :=
  match take1 buf with
  | .error _ => none
  | .ok (_, b1) =>
    match take1 b1 with
    | .error _ => none
    | .ok (_, b2) =>
      match take1 b2 with
      | .error _ => none
      | .ok (_, b3) =>
        match takeN 32 b3 with
        | .error _ => none
        | .ok (_, b4) =>
          match take1 b4 with
          | .error _ => none
          | .ok (c0, b5) =>
            match take1 b5 with
            | .error _ => none
            | .ok (c1, b6) =>
              match take1 b6 with
              | .error _ => none
              | .ok (c2, b7) =>
                match take1 b7 with
                | .error _ => none
                | .ok (c3, _) => some (rd32 c0 c1 c2 c3)

/-! ## Concrete witness inputs -/

/-- A concrete allowed-IP record (10.0.0.0/24) used as witness input. -/
def wAllowedIp : AllowedIp := ⟨.v4, [10, 0, 0, 0], 24⟩

/-- A concrete endpoint used as witness input. -/
def wEndpoint : Endpoint := ⟨.v4, [1, 2, 3, 4], 51820⟩

/-- A concrete peer (all optional fields set) used as witness input. -/
def wPeer : Peer :=
  ⟨List.replicate 32 9, some (List.replicate 32 3), some 25, some wEndpoint,
   [wAllowedIp, ⟨.v6, List.replicate 16 7, 128⟩]⟩

/-- A concrete peer (all optional fields unset) used as witness input. -/
def wPeerBare : Peer := ⟨List.replicate 32 8, none, none, none, []⟩

/-- A concrete two-peer configuration used as witness input. -/
def wConfig : Configuration :=
  ⟨some 51821, some (List.replicate 32 1), [wPeer, wPeerBare]⟩

/-- A concrete 39-byte buffer whose header declares one peer but which
carries no peer bytes, used as witness input for truncated decoding. -/
def wShortBuf : List Nat :=
  0 :: 0 :: 0 :: (List.replicate 32 0 ++ [1, 0, 0, 0])

/-! ## Adapter lifecycle and driver boundary

Modelled from the spec: the `adapter` module is not under src; the state
machine, the up/down flag, create, set_config and the drop/delete
distinction follow spec sections 4.2 and 7. -/

/-- Modelled from the spec: the adapter lifecycle states of section 4.2. -/
inductive AdapterState where
  | nonexistent
  | opened
  | deleted
deriving DecidableEq, Repr

/-- The operations issuable on an adapter value after creation. -/
inductive AdapterOp where
  | setConfig
  | getConfig
  | up
  | down
  | delete
  | getLuid
  | getGuid
deriving DecidableEq, Repr

/-- Modelled from the spec: the adapter lifecycle transition function;
`none` means the operation cannot be issued in that state at all (in Rust,
not even expressible, since delete consumes the value).  delete requires
Open and moves to Deleted; every other operation requires Open and leaves
the state Open; Deleted has no outgoing transitions. -/
def adapterStep : AdapterState → AdapterOp → Option AdapterState
  | .opened, .delete => some .deleted
  | .opened, _ => some .opened
  | _, _ => none

/-- Modelled from the spec: the OS-visible state — which (pool, name)
adapters are present in the driver's pools, and which driver handles are
open. -/
structure OsState where
  pools : List (String × String)
  handles : List Nat
deriving DecidableEq, Repr

/-- Modelled from the spec: an adapter value owning one driver handle for
the adapter addressed by (pool, name). -/
structure AdapterHandle where
  handle : Nat
  pool : String
  name : String
deriving DecidableEq, Repr

/-- Not-found error returned by open when no adapter has the given pool and
name. -/
inductive OpenError where
  | notFound
deriving DecidableEq, Repr

/-- Modelled from the spec: Adapter::open — looks up an existing adapter by
pool+name; not-found error otherwise; the OS state is unchanged. -/
def openAdapter (os : OsState) (pool name : String) :
    Except OpenError Unit :=
  if (pool, name) ∈ os.pools then .ok () else .error .notFound

/-- Modelled from the spec: dropping an Adapter without calling delete —
the driver handle is closed, but the adapter is not deleted from the pool. -/
def dropAdapter (os : OsState) (a : AdapterHandle) : OsState :=
  ⟨os.pools, os.handles.filter (fun h => h ≠ a.handle)⟩

/-- Modelled from the spec: Adapter::delete — invokes driver delete,
removing the adapter from the pool; the consumed value's handle is closed. -/
def deleteAdapter (os : OsState) (a : AdapterHandle) : OsState :=
  ⟨os.pools.filter (fun pn => pn ≠ (a.pool, a.name)),
   os.handles.filter (fun h => h ≠ a.handle)⟩

/-- Modelled from the spec: the runtime view of one open adapter — its
lifecycle state plus the driver's adapter-enabled flag toggled by
up/down. -/
structure AdapterRuntime where
  lifecycle : AdapterState
  enabled : Bool
deriving DecidableEq, Repr

/-- Error for an operation requiring the Open state. -/
inductive AdapterError where
  | notOpen
deriving DecidableEq, Repr

/-- Modelled from the spec: up() — requires Open; sets the driver's
adapter-enabled flag; no lifecycle transition. -/
def upAdapter (a : AdapterRuntime) : Except AdapterError AdapterRuntime :=
  if a.lifecycle = .opened then .ok ⟨a.lifecycle, true⟩
  else .error .notOpen

/-- Modelled from the spec: down() — requires Open; clears the driver's
adapter-enabled flag; no lifecycle transition. -/
def downAdapter (a : AdapterRuntime) : Except AdapterError AdapterRuntime :=
  if a.lifecycle = .opened then .ok ⟨a.lifecycle, false⟩
  else .error .notOpen

/-- Modelled from the spec: the driver's answer to a create request —
refusal carrying a native error code, or an allocated adapter handle
together with the non-fatal reboot-required signal. -/
inductive DriverCreateResult where
  | refused (code : Nat)
  | allocated (handle : Nat) (rebootRequired : Bool)
deriving DecidableEq, Repr

/-- Modelled from the spec and the crate docs (`Adapter::create(...)
.adapter`): the success value of create — the usable adapter alongside the
reboot-required signal. -/
structure CreateData where
  adapter : AdapterRuntime
  rebootRequired : Bool
deriving DecidableEq, Repr

/-- Modelled from the spec: Adapter::create — an error only when the driver
refuses to allocate; otherwise success carrying the open adapter and the
reboot-required side-signal. -/
def createAdapter : DriverCreateResult → Except Nat CreateData
  | .refused code => .error code
  | .allocated _ r => .ok ⟨⟨.opened, false⟩, r⟩

/-- Modelled from the spec: the observable driver boundary for
set-configuration — the list of buffers that have crossed into the native
call. -/
structure DriverState where
  setConfigCalls : List (List Nat)
deriving DecidableEq, Repr

/-- set_config failures: a codec rejection before the native call, or the
driver's rejection code after it. -/
inductive SetConfigError where
  | codec (e : CodecError)
  | driver (code : Nat)
deriving DecidableEq, Repr

/-- Modelled from the spec: set_config — serializes the Configuration via
the binary config codec and only then invokes the driver's
set-configuration call (`drv`, returning `none` for acceptance or a native
rejection code); a malformed configuration is rejected with a codec error
before the native call is made, leaving the driver untouched. -/
def setConfig (drv : List Nat → Option Nat) (d : DriverState)
    (c : Configuration) : Except SetConfigError Unit × DriverState :=
  match encodeConfig c with
  | .error e => (.error (.codec e), d)
  | .ok buf =>
    match drv buf with
    | none => (.ok (), ⟨d.setConfigCalls ++ [buf]⟩)
    | some code => (.error (.driver code), ⟨d.setConfigCalls ++ [buf]⟩)

/-! ## Library loader

`load`, `load_from_path` and `load_from_library` are taken from src/lib.rs;
the generated `wireguard_nt_raw::wireguard::{new, from_library}` loaders
they delegate to are modelled from the spec (sections 4.1 and 6). -/

/-- Modelled from the spec: the resolved native function table — one
resolved address per required driver entry point. -/
structure Dll where
  table : List (String × Nat)
deriving DecidableEq, Repr

/-- Modelled from the spec (section 6): the entry points the driver
interface requires. -/
def requiredSymbols : List String :=
  ["WireGuardCreateAdapter", "WireGuardOpenAdapter",
   "WireGuardCloseAdapter", "WireGuardDeleteAdapter",
   "WireGuardGetConfiguration", "WireGuardSetConfiguration",
   "WireGuardSetAdapterState", "WireGuardGetRunningDriverVersion",
   "WireGuardSetLogger"]

/-- Modelled from the spec: library-loading failures — a dynamic-load
failure or a missing required symbol; a type distinct from a generic I/O
error. -/
inductive LibloadingError where
  | dlOpenFailed (path : String)
  | symbolNotFound (name : String)
deriving DecidableEq, Repr

/-- Modelled from the spec: the process environment seen by the dynamic
loader — which loadable libraries exist per path, and the symbols each
exports. -/
structure ProcessEnv where
  libs : List (String × List (String × Nat))
deriving DecidableEq, Repr

/-- Modelled from the spec: resolve each required symbol from an export
table, failing with the name of the first missing symbol. -/
def resolveSymbols (exports : List (String × Nat)) :
    List String → Except LibloadingError (List (String × Nat))
  | [] => .ok []
  | s :: rest =>
    match exports.lookup s with
    | none => .error (.symbolNotFound s)
    | some addr =>
      match resolveSymbols exports rest with
      | .error e => .error e
      | .ok t => .ok ((s, addr) :: t)

/-- Modelled from the spec: `wireguard_nt_raw::wireguard::new` — the
generated loader that opens the library at `path` and resolves every
required entry point. -/
def wireguardNew (env : ProcessEnv) (path : String) :
    Except LibloadingError Dll :=
  match env.libs.lookup path with
  | none => .error (.dlOpenFailed path)
  | some exports =>
    match resolveSymbols exports requiredSymbols with
    | .error e => .error e
    | .ok t => .ok ⟨t⟩

/-- Modelled from the spec: `wireguard_nt_raw::wireguard::from_library` —
resolves the required entry points from an already-open library's export
table. -/
def wireguardFromLibrary (exports : List (String × Nat)) :
    Except LibloadingError Dll :=
  match resolveSymbols exports requiredSymbols with
  | .error e => .error e
  | .ok t => .ok ⟨t⟩

/-- A strong reference-counted shared handle (the Rust `Arc`): the wrapped
value plus the strong count. -/
structure Arc (α : Type) where
  value : α
  strong : Nat
deriving DecidableEq, Repr

/-- Allocate a fresh Arc with one strong reference (`Arc::new`). -/
def arcNew {α : Type} (v : α) : Arc α := ⟨v, 1⟩

/-- Clone an Arc: the same shared value, one more strong reference. -/
def arcClone {α : Type} (a : Arc α) : Arc α := ⟨a.value, a.strong + 1⟩

/-- Drop one strong reference; `none` means the count reached zero and the
value is destroyed (for the function table: the native library is
unloaded only then). -/
def arcDrop {α : Type} (a : Arc α) : Option (Arc α) :=
  if a.strong ≤ 1 then none else some ⟨a.value, a.strong - 1⟩

/-- From src/lib.rs: `load_from_path` — loads the library at the given path
via the generated loader and wraps the resolved function table in an Arc. -/
def load_from_path (env : ProcessEnv) (path : String) :
    Except LibloadingError (Arc Dll) :=
  match wireguardNew env path with
  | .error e => .error e
  | .ok d => .ok (arcNew d)

/-- From src/lib.rs: `load` — delegates to `load_from_path` with the
default library name. -/
def load (env : ProcessEnv) : Except LibloadingError (Arc Dll) :=
  load_from_path env "wireguard"

/-- From src/lib.rs: `load_from_library` — wraps the table resolved from an
already-open library in an Arc. -/
def load_from_library (exports : List (String × Nat)) :
    Except LibloadingError (Arc Dll) :=
  match wireguardFromLibrary exports with
  | .error e => .error e
  | .ok d => .ok (arcNew d)

/-- From src/lib.rs: the maximum pool-name size constant. -/
def MAX_POOL : Nat := 256

/-- Modelled from the spec: pool/adapter-name validation — caller-supplied
names are accepted only when they fit the MAX_POOL-bounded name buffer
(strictly below MAX_POOL code units, leaving room for the terminator). -/
def checkPoolName (s : String) : Option String :=
  if s.length < MAX_POOL then some s else none

/-! ## Further concrete witness inputs -/

/-- A concrete configuration containing an AllowedIP whose prefix length 33
exceeds the IPv4 maximum of 32, used as witness input. -/
def wBadConfig : Configuration :=
  ⟨none, none,
   [⟨List.replicate 32 9, none, none, none, [⟨.v4, [10, 0, 0, 0], 33⟩]⟩]⟩

/-- A concrete export table carrying every required symbol, used as witness
input. -/
def wExports : List (String × Nat) :=
  requiredSymbols.map (fun s => (s, 7))

/-- The function table resolved from `wExports`. -/
def wDll : Dll := ⟨wExports⟩

/-- A concrete process environment exposing `wExports` under the default
library name, used as witness input. -/
def wEnv : ProcessEnv := ⟨[("wireguard", wExports)]⟩

/-- A concrete OS state holding one adapter ("WireGuard", "Demo") with open
handle 7, used as witness input. -/
def wOs : OsState := ⟨[("WireGuard", "Demo")], [7]⟩

/-- The adapter value owning handle 7 for ("WireGuard", "Demo"), used as
witness input. -/
def wAdapter : AdapterHandle := ⟨7, "WireGuard", "Demo"⟩

/-! ## Round-trip helper lemmas -/

theorem rd16_le16 {n : Nat} (h : n < 65536) :
    rd16 (n % 256) (n / 256 % 256) = n := by
  simp only [rd16]
  omega

theorem rd32_le32 {n : Nat} (h : n < 4294967296) :
    rd32 (n % 256) (n / 256 % 256) (n / 65536 % 256) (n / 16777216 % 256)
      = n := by
  simp only [rd32]
  omega

theorem take1_cons (b : Nat) (r : List Nat) : take1 (b :: r) = .ok (b, r) :=
  rfl

theorem takeN_append {n : Nat} (xs r : List Nat) (h : xs.length = n) :
    takeN n (xs ++ r) = .ok (xs, r) := by
  induction xs generalizing n with
  | nil => simp at h; subst h; rfl
  | cons b xs ih =>
    cases n with
    | zero => simp at h
    | succ m =>
      simp only [List.length_cons, Nat.succ.injEq] at h
      simp only [List.cons_append, takeN]
      rw [show xs.append r = xs ++ r from rfl, ih h]

theorem takeN_of_length {n : Nat} {xs : List Nat} (h : xs.length = n)
    (r : List Nat) : takeN n (xs ++ r) = .ok (xs, r) :=
  takeN_append xs r h

theorem decodeFamily_code (f : AddressFamily) :
    decodeFamily (familyCode f) = .ok f := by
  cases f <;> rfl

theorem addrLen_le (f : AddressFamily) : addrLen f ≤ 16 := by
  cases f <;> simp [addrLen]

theorem padded_length {f : AddressFamily} {addr : List Nat}
    (h : addr.length = addrLen f) :
    (addr ++ List.replicate (16 - addrLen f) 0).length = 16 := by
  have := addrLen_le f
  simp [h]
  omega

theorem padded_take {f : AddressFamily} {addr : List Nat}
    (h : addr.length = addrLen f) :
    (addr ++ List.replicate (16 - addrLen f) 0).take (addrLen f) = addr := by
  rw [← h, List.take_left]

theorem optFlag_le_one (o : Option α) : optFlag o ≤ 1 := by
  cases o <;> simp [optFlag]

theorem flags_bit0 {a b c : Nat} (ha : a ≤ 1) :
    (a + 2 * b + 4 * c) % 2 = a := by omega

theorem flags_bit1 {a b c : Nat} (ha : a ≤ 1) (hb : b ≤ 1) :
    (a + 2 * b + 4 * c) / 2 % 2 = b := by omega

theorem flags_bit2 {a b c : Nat} (ha : a ≤ 1) (hb : b ≤ 1) (hc : c ≤ 1) :
    (a + 2 * b + 4 * c) / 4 % 2 = c := by omega

theorem encodeAllowedIp_wf {ip : AllowedIp} (h : ip.wf = true) :
    encodeAllowedIp ip = .ok (familyCode ip.family ::
      (ip.address ++ List.replicate (16 - addrLen ip.family) 0) ++
      [ip.cidr]) := by
  simp only [AllowedIp.wf, Bool.and_eq_true, decide_eq_true_eq] at h
  simp [encodeAllowedIp, Nat.not_lt.mpr h.1, h.2]

theorem takeN_pad {f : AddressFamily} {addr r : List Nat}
    (h : addr.length = addrLen f) :
    takeN 16 (addr ++ (List.replicate (16 - addrLen f) 0 ++ r)) =
      .ok (addr ++ List.replicate (16 - addrLen f) 0, r) := by
  rw [← List.append_assoc]
  exact takeN_append _ _ (padded_length h)

theorem decodeAllowedIp_encode {ip : AllowedIp} (h : ip.wf = true)
    (rest : List Nat) :
    decodeAllowedIp (familyCode ip.family ::
      (ip.address ++ (List.replicate (16 - addrLen ip.family) 0 ++
       (ip.cidr :: rest)))) = .ok (ip, rest) := by
  obtain ⟨f, addr, cidr⟩ := ip
  simp only [AllowedIp.wf, Bool.and_eq_true, decide_eq_true_eq] at h
  obtain ⟨h1, h2⟩ := h
  simp only [decodeAllowedIp, take1_cons, decodeFamily_code,
    takeN_pad h2, if_neg (Nat.not_lt.mpr h1), padded_take h2]

theorem encodeAllowedIps_wf {ips : List AllowedIp}
    (h : ips.all AllowedIp.wf = true) :
    ∃ r, encodeAllowedIps ips = .ok r ∧
      ∀ rest, decodeAllowedIps ips.length (r ++ rest) = .ok (ips, rest) := by
  induction ips with
  | nil => exact ⟨[], rfl, fun rest => rfl⟩
  | cons ip ips ih =>
    simp only [List.all_cons, Bool.and_eq_true] at h
    obtain ⟨r, hr, hdec⟩ := ih h.2
    refine ⟨(familyCode ip.family ::
      (ip.address ++ List.replicate (16 - addrLen ip.family) 0) ++
      [ip.cidr]) ++ r, ?_, ?_⟩
    · simp only [encodeAllowedIps, encodeAllowedIp_wf h.1, hr]
    · intro rest
      simp only [List.length_cons, decodeAllowedIps, List.cons_append,
        List.append_assoc, List.singleton_append, List.nil_append,
        decodeAllowedIp_encode h.1, hdec]

theorem opt_reassemble {α : Type} (o : Option α) (d : α) :
    (if optFlag o = 1 then some (o.getD d) else none) = o := by
  cases o <;> simp [optFlag]

theorem getD_length_32 {o : Option (List Nat)}
    (h : o.all (fun k => decide (k.length = 32)) = true) :
    (o.getD (List.replicate 32 0)).length = 32 := by
  cases o with
  | none => simp
  | some k => simpa using h

theorem getD_lt_65536 {o : Option Nat}
    (h : o.all (fun n => decide (n < 65536)) = true) :
    o.getD 0 < 65536 := by
  cases o with
  | none => simp
  | some n => simpa using h

theorem encodeEndpoint_wf {eo : Option Endpoint}
    (h : eo.all Endpoint.wf = true) :
    ∃ ep, encodeEndpoint eo = .ok ep ∧
      ∀ rest, decodeEndpoint (optFlag eo = 1) (ep ++ rest) =
        .ok (eo, rest) := by
  cases eo with
  | none =>
    refine ⟨0 :: (List.replicate 16 0 ++ (0 :: [0])), by rfl, ?_⟩
    intro rest
    simp only [decodeEndpoint, List.cons_append, List.append_assoc,
      List.nil_append, take1_cons,
      takeN_of_length (List.length_replicate 16 0), optFlag]
    simp
  | some e =>
    obtain ⟨f, addr, port⟩ := e
    simp only [Option.all_some] at h
    simp only [Endpoint.wf, Bool.and_eq_true, decide_eq_true_eq] at h
    obtain ⟨ha, hp⟩ := h
    refine ⟨familyCode f ::
      (addr ++ (List.replicate (16 - addrLen f) 0 ++
       (port % 256 :: [port / 256 % 256]))), ?_, ?_⟩
    · simp [encodeEndpoint, ha, le16]
    · intro rest
      simp only [decodeEndpoint, List.cons_append, List.append_assoc,
        List.nil_append, take1_cons, takeN_pad ha, optFlag]
      simp [decodeFamily_code, padded_take ha, rd16_le16 hp]

theorem encodePeer_wf {p : Peer} (h : p.wf = true) :
    ∃ r, encodePeer p = .ok r ∧
      ∀ rest, decodePeer (r ++ rest) = .ok (p, rest) := by
  obtain ⟨ppk, ppsk, pka, pep, pips⟩ := p
  simp only [Peer.wf, Bool.and_eq_true] at h
  obtain ⟨⟨⟨⟨⟨hpk, hpsk⟩, hka⟩, hep⟩, hcnt⟩, hips⟩ := h
  replace hpk := of_decide_eq_true hpk
  replace hcnt := of_decide_eq_true hcnt
  obtain ⟨ep, hepEnc, hepDec⟩ := encodeEndpoint_wf hep
  obtain ⟨ips, hipsEnc, hipsDec⟩ := encodeAllowedIps_wf hips
  refine ⟨(optFlag ppsk + 2 * optFlag pka + 4 * optFlag pep) ::
    (ppk ++ (ppsk.getD (List.replicate 32 0) ++ (le16 (pka.getD 0) ++
     (ep ++ (le32 pips.length ++ ips))))), ?_, ?_⟩
  · cases ppsk with
    | none => simp [encodePeer, hpk, hepEnc, hipsEnc]
    | some k =>
      have hk : k.length = 32 := of_decide_eq_true (by simpa using hpsk)
      simp [encodePeer, hpk, hk, hepEnc, hipsEnc]
  · intro rest
    simp only [decodePeer, le16, le32, List.cons_append, List.append_assoc,
      List.nil_append, take1_cons, takeN_of_length hpk,
      takeN_of_length (getD_length_32 hpsk),
      flags_bit0 (optFlag_le_one ppsk),
      flags_bit1 (optFlag_le_one ppsk) (optFlag_le_one pka),
      flags_bit2 (optFlag_le_one ppsk) (optFlag_le_one pka)
        (optFlag_le_one pep),
      hepDec, rd16_le16 (getD_lt_65536 hka), rd32_le32 hcnt, hipsDec,
      opt_reassemble]

theorem encodePeers_wf {ps : List Peer} (h : ps.all Peer.wf = true) :
    ∃ r, encodePeers ps = .ok r ∧
      ∀ rest, decodePeers ps.length (r ++ rest) = .ok (ps, rest) := by
  induction ps with
  | nil => exact ⟨[], rfl, fun rest => rfl⟩
  | cons p ps ih =>
    simp only [List.all_cons, Bool.and_eq_true] at h
    obtain ⟨r, hr, hdec⟩ := ih h.2
    obtain ⟨rp, hrp, hdecp⟩ := encodePeer_wf h.1
    refine ⟨rp ++ r, ?_, ?_⟩
    · simp only [encodePeers, hrp, hr]
    · intro rest
      simp only [List.length_cons, decodePeers, List.append_assoc, hdecp,
        hdec]

theorem flags2_bit0 {a b : Nat} (ha : a ≤ 1) : (a + 2 * b) % 2 = a := by
  omega

theorem flags2_bit1 {a b : Nat} (ha : a ≤ 1) (hb : b ≤ 1) :
    (a + 2 * b) / 2 % 2 = b := by omega

/-- C1: for every Configuration whose fields are in valid ranges (every
AllowedIP prefix length within its address family's bound, non-empty
fixed-size public keys), decoding the buffer produced by the binary config
codec's encoder yields a Configuration equal to the original; optional
fields whose presence flag is unset decode to absent. -/
theorem c1_encode_decode_roundtrip (c : Configuration) (h : c.wf = true) :
    ∃ buf, encodeConfig c = .ok buf ∧ decodeConfig buf = .ok c := by
  obtain ⟨clp, cpk, cps⟩ := c
  simp only [Configuration.wf, Bool.and_eq_true] at h
  obtain ⟨⟨⟨hlp, hpkk⟩, hcnt⟩, hps⟩ := h
  replace hcnt := of_decide_eq_true hcnt
  obtain ⟨r, hr, hdec⟩ := encodePeers_wf hps
  have hd := hdec []
  rw [List.append_nil] at hd
  refine ⟨(optFlag clp + 2 * optFlag cpk) ::
    (le16 (clp.getD 0) ++ (cpk.getD (List.replicate 32 0) ++
     (le32 cps.length ++ r))), ?_, ?_⟩
  · cases cpk with
    | none => simp [encodeConfig, hr]
    | some k =>
      have hk : k.length = 32 := of_decide_eq_true (by simpa using hpkk)
      simp [encodeConfig, hk, hr]
  · simp only [decodeConfig, le16, le32, List.cons_append,
      List.append_assoc, List.nil_append, take1_cons,
      takeN_of_length (getD_length_32 hpkk),
      flags2_bit0 (optFlag_le_one clp),
      flags2_bit1 (optFlag_le_one clp) (optFlag_le_one cpk),
      rd16_le16 (getD_lt_65536 hlp), rd32_le32 hcnt, hd, opt_reassemble]

/-- Witness for C1: the round-trip theorem applied to a concrete valid
two-peer configuration. -/
theorem c1_encode_decode_roundtrip_witness :
    wConfig.wf = true ∧
      ∃ buf, encodeConfig wConfig = .ok buf ∧
        decodeConfig buf = .ok wConfig :=
  ⟨by decide, c1_encode_decode_roundtrip wConfig (by decide)⟩

/-! ## Consumption bounds: a successful decode never reads past the end

Each decoding step consumes exactly (or at least) the size its fixed-size
layout declares, so a buffer shorter than the declared sizes cannot decode
successfully. -/

theorem take1_length {buf : List Nat} {b : Nat} {r : List Nat}
    (h : take1 buf = .ok (b, r)) : r.length + 1 = buf.length := by
  cases buf with
  | nil => simp [take1] at h
  | cons x l =>
    simp only [take1, Except.ok.injEq, Prod.mk.injEq] at h
    obtain ⟨rfl, rfl⟩ := h
    simp

theorem takeN_length {n : Nat} {buf xs r : List Nat}
    (h : takeN n buf = .ok (xs, r)) : r.length + n = buf.length := by
  induction n generalizing buf xs r with
  | zero =>
    simp only [takeN, Except.ok.injEq, Prod.mk.injEq] at h
    obtain ⟨rfl, rfl⟩ := h
    simp
  | succ m ih =>
    cases buf with
    | nil => simp [takeN] at h
    | cons b l =>
      simp only [takeN] at h
      cases hm : takeN m l with
      | error e => rw [hm] at h; simp at h
      | ok p =>
        obtain ⟨xs', r'⟩ := p
        rw [hm] at h
        simp only [Except.ok.injEq, Prod.mk.injEq] at h
        obtain ⟨rfl, rfl⟩ := h
        have := ih hm
        simp
        omega

theorem decodeAllowedIp_length {buf : List Nat} {ip : AllowedIp}
    {r : List Nat} (h : decodeAllowedIp buf = .ok (ip, r)) :
    r.length + 18 = buf.length := by
  unfold decodeAllowedIp at h
  cases h1 : take1 buf with
  | error e => simp only [h1] at h; exact Except.noConfusion h
  | ok v1 =>
    obtain ⟨famB, b1⟩ := v1
    simp only [h1] at h
    cases h2 : decodeFamily famB with
    | error e => simp only [h2] at h; exact Except.noConfusion h
    | ok fam =>
      simp only [h2] at h
      cases h3 : takeN 16 b1 with
      | error e => simp only [h3] at h; exact Except.noConfusion h
      | ok v3 =>
        obtain ⟨addr16, b2⟩ := v3
        simp only [h3] at h
        cases h4 : take1 b2 with
        | error e => simp only [h4] at h; exact Except.noConfusion h
        | ok v4 =>
          obtain ⟨cidr, b3⟩ := v4
          simp only [h4] at h
          split at h
          · simp at h
          · simp only [Except.ok.injEq, Prod.mk.injEq] at h
            obtain ⟨-, rfl⟩ := h
            have e1 := take1_length h1
            have e3 := takeN_length h3
            have e4 := take1_length h4
            omega

theorem decodeAllowedIps_length {n : Nat} {buf : List Nat}
    {ips : List AllowedIp} {r : List Nat}
    (h : decodeAllowedIps n buf = .ok (ips, r)) :
    r.length + 18 * n = buf.length := by
  induction n generalizing buf ips r with
  | zero =>
    simp only [decodeAllowedIps, Except.ok.injEq, Prod.mk.injEq] at h
    obtain ⟨-, rfl⟩ := h
    simp
  | succ m ih =>
    simp only [decodeAllowedIps] at h
    cases h1 : decodeAllowedIp buf with
    | error e => simp only [h1] at h; exact Except.noConfusion h
    | ok v1 =>
      obtain ⟨ip, b1⟩ := v1
      simp only [h1] at h
      cases h2 : decodeAllowedIps m b1 with
      | error e => simp only [h2] at h; exact Except.noConfusion h
      | ok v2 =>
        obtain ⟨ips', b2⟩ := v2
        simp only [h2] at h
        simp only [Except.ok.injEq, Prod.mk.injEq] at h
        obtain ⟨-, rfl⟩ := h
        have e1 := decodeAllowedIp_length h1
        have e2 := ih h2
        omega

theorem decodeEndpoint_length {pr : Bool} {buf : List Nat}
    {eo : Option Endpoint} {r : List Nat}
    (h : decodeEndpoint pr buf = .ok (eo, r)) :
    r.length + 19 = buf.length := by
  unfold decodeEndpoint at h
  cases h1 : take1 buf with
  | error e => simp only [h1] at h; exact Except.noConfusion h
  | ok v1 =>
    obtain ⟨famB, b1⟩ := v1
    simp only [h1] at h
    cases h2 : takeN 16 b1 with
    | error e => simp only [h2] at h; exact Except.noConfusion h
    | ok v2 =>
      obtain ⟨addr16, b2⟩ := v2
      simp only [h2] at h
      cases h3 : take1 b2 with
      | error e => simp only [h3] at h; exact Except.noConfusion h
      | ok v3 =>
        obtain ⟨p0, b3⟩ := v3
        simp only [h3] at h
        cases h4 : take1 b3 with
        | error e => simp only [h4] at h; exact Except.noConfusion h
        | ok v4 =>
          obtain ⟨p1, b4⟩ := v4
          simp only [h4] at h
          have e1 := take1_length h1
          have e2 := takeN_length h2
          have e3 := take1_length h3
          have e4 := take1_length h4
          cases pr with
          | false =>
            simp only [Bool.false_eq_true, if_false, Except.ok.injEq,
              Prod.mk.injEq] at h
            obtain ⟨-, rfl⟩ := h
            omega
          | true =>
            simp only [if_true] at h
            cases h5 : decodeFamily famB with
            | error e => simp only [h5] at h; exact Except.noConfusion h
            | ok fam =>
              simp only [h5, Except.ok.injEq, Prod.mk.injEq] at h
              obtain ⟨-, rfl⟩ := h
              omega

theorem decodePeer_length {buf : List Nat} {p : Peer} {r : List Nat}
    (h : decodePeer buf = .ok (p, r)) : r.length + 90 ≤ buf.length := by
  unfold decodePeer at h
  cases h1 : take1 buf with
  | error e => simp only [h1] at h; exact Except.noConfusion h
  | ok v1 =>
    obtain ⟨flags, b1⟩ := v1
    simp only [h1] at h
    cases h2 : takeN 32 b1 with
    | error e => simp only [h2] at h; exact Except.noConfusion h
    | ok v2 =>
      obtain ⟨pk, b2⟩ := v2
      simp only [h2] at h
      cases h3 : takeN 32 b2 with
      | error e => simp only [h3] at h; exact Except.noConfusion h
      | ok v3 =>
        obtain ⟨psk, b3⟩ := v3
        simp only [h3] at h
        cases h4 : take1 b3 with
        | error e => simp only [h4] at h; exact Except.noConfusion h
        | ok v4 =>
          obtain ⟨k0, b4⟩ := v4
          simp only [h4] at h
          cases h5 : take1 b4 with
          | error e => simp only [h5] at h; exact Except.noConfusion h
          | ok v5 =>
            obtain ⟨k1, b5⟩ := v5
            simp only [h5] at h
            cases h6 : decodeEndpoint (decide (flags / 4 % 2 = 1)) b5 with
            | error e => simp only [h6] at h; exact Except.noConfusion h
            | ok v6 =>
              obtain ⟨ep, b6⟩ := v6
              simp only [h6] at h
              cases h7 : take1 b6 with
              | error e => simp only [h7] at h; exact Except.noConfusion h
              | ok v7 =>
                obtain ⟨c0, b7⟩ := v7
                simp only [h7] at h
                cases h8 : take1 b7 with
                | error e => simp only [h8] at h; exact Except.noConfusion h
                | ok v8 =>
                  obtain ⟨c1, b8⟩ := v8
                  simp only [h8] at h
                  cases h9 : take1 b8 with
                  | error e => simp only [h9] at h; exact Except.noConfusion h
                  | ok v9 =>
                    obtain ⟨c2, b9⟩ := v9
                    simp only [h9] at h
                    cases h10 : take1 b9 with
                    | error e =>
                      simp only [h10] at h; exact Except.noConfusion h
                    | ok v10 =>
                      obtain ⟨c3, b10⟩ := v10
                      simp only [h10] at h
                      cases h11 : decodeAllowedIps (rd32 c0 c1 c2 c3) b10 with
                      | error e =>
                        simp only [h11] at h; exact Except.noConfusion h
                      | ok v11 =>
                        obtain ⟨ips, b11⟩ := v11
                        simp only [h11, Except.ok.injEq,
                          Prod.mk.injEq] at h
                        obtain ⟨-, rfl⟩ := h
                        have e1 := take1_length h1
                        have e2 := takeN_length h2
                        have e3 := takeN_length h3
                        have e4 := take1_length h4
                        have e5 := take1_length h5
                        have e6 := decodeEndpoint_length h6
                        have e7 := take1_length h7
                        have e8 := take1_length h8
                        have e9 := take1_length h9
                        have e10 := take1_length h10
                        have e11 := decodeAllowedIps_length h11
                        omega

theorem decodePeers_length {n : Nat} {buf : List Nat} {ps : List Peer}
    {r : List Nat} (h : decodePeers n buf = .ok (ps, r)) :
    r.length + 90 * n ≤ buf.length := by
  induction n generalizing buf ps r with
  | zero =>
    simp only [decodePeers, Except.ok.injEq, Prod.mk.injEq] at h
    obtain ⟨-, rfl⟩ := h
    simp
  | succ m ih =>
    simp only [decodePeers] at h
    cases h1 : decodePeer buf with
    | error e => simp only [h1] at h; exact Except.noConfusion h
    | ok v1 =>
      obtain ⟨p, b1⟩ := v1
      simp only [h1] at h
      cases h2 : decodePeers m b1 with
      | error e => simp only [h2] at h; exact Except.noConfusion h
      | ok v2 =>
        obtain ⟨ps', b2⟩ := v2
        simp only [h2, Except.ok.injEq, Prod.mk.injEq] at h
        obtain ⟨-, rfl⟩ := h
        have e1 := decodePeer_length h1
        have e2 := ih h2
        omega

theorem decodeConfig_declared_length {buf : List Nat} {c : Configuration}
    (h : decodeConfig buf = .ok c) :
    ∃ n, declaredPeerCount buf = some n ∧ 39 + 90 * n ≤ buf.length := by
  unfold decodeConfig at h
  cases h1 : take1 buf with
  | error e => simp only [h1] at h; exact Except.noConfusion h
  | ok v1 =>
    obtain ⟨flags, b1⟩ := v1
    simp only [h1] at h
    cases h2 : take1 b1 with
    | error e => simp only [h2] at h; exact Except.noConfusion h
    | ok v2 =>
      obtain ⟨l0, b2⟩ := v2
      simp only [h2] at h
      cases h3 : take1 b2 with
      | error e => simp only [h3] at h; exact Except.noConfusion h
      | ok v3 =>
        obtain ⟨l1, b3⟩ := v3
        simp only [h3] at h
        cases h4 : takeN 32 b3 with
        | error e => simp only [h4] at h; exact Except.noConfusion h
        | ok v4 =>
          obtain ⟨pk, b4⟩ := v4
          simp only [h4] at h
          cases h5 : take1 b4 with
          | error e => simp only [h5] at h; exact Except.noConfusion h
          | ok v5 =>
            obtain ⟨c0, b5⟩ := v5
            simp only [h5] at h
            cases h6 : take1 b5 with
            | error e => simp only [h6] at h; exact Except.noConfusion h
            | ok v6 =>
              obtain ⟨c1, b6⟩ := v6
              simp only [h6] at h
              cases h7 : take1 b6 with
              | error e => simp only [h7] at h; exact Except.noConfusion h
              | ok v7 =>
                obtain ⟨c2, b7⟩ := v7
                simp only [h7] at h
                cases h8 : take1 b7 with
                | error e => simp only [h8] at h; exact Except.noConfusion h
                | ok v8 =>
                  obtain ⟨c3, b8⟩ := v8
                  simp only [h8] at h
                  cases h9 : decodePeers (rd32 c0 c1 c2 c3) b8 with
                  | error e =>
                    simp only [h9] at h; exact Except.noConfusion h
                  | ok v9 =>
                    obtain ⟨ps, b9⟩ := v9
                    refine ⟨rd32 c0 c1 c2 c3, ?_, ?_⟩
                    · simp only [declaredPeerCount, h1, h2, h3, h4, h5,
                        h6, h7, h8]
                    · have e1 := take1_length h1
                      have e2 := take1_length h2
                      have e3 := take1_length h3
                      have e4 := takeN_length h4
                      have e5 := take1_length h5
                      have e6 := take1_length h6
                      have e7 := take1_length h7
                      have e8 := take1_length h8
                      have e9 := decodePeers_length h9
                      omega

/-- C2: a configuration buffer whose declared peer count exceeds what the
buffer's actual length can hold (fewer than the 39 header bytes plus 90
bytes of fixed-size peer header per declared peer remain) is rejected by
the decoder with a codec error; the list-based reader makes an
out-of-bounds read impossible and every exhausted read yields
`truncatedBuffer`. -/
theorem c2_truncated_decode (buf : List Nat) (n : Nat)
    (hdecl : declaredPeerCount buf = some n)
    (hlen : buf.length < 39 + 90 * n) :
    ∃ e, decodeConfig buf = .error e := by
  cases hd : decodeConfig buf with
  | error e => exact ⟨e, rfl⟩
  | ok c =>
    obtain ⟨m, hm, hle⟩ := decodeConfig_declared_length hd
    rw [hdecl] at hm
    obtain rfl : n = m := by simpa using hm
    omega

/-- Witness for C2: a concrete 39-byte buffer declaring one peer fails to
decode. -/
theorem c2_truncated_decode_witness :
    declaredPeerCount wShortBuf = some 1 ∧ wShortBuf.length < 39 + 90 * 1 ∧
      ∃ e, decodeConfig wShortBuf = .error e :=
  ⟨by decide, by decide,
   c2_truncated_decode wShortBuf 1 (by decide) (by decide)⟩

/-! ## Adapter lifecycle properties -/

/-- C3: in the lifecycle state machine, delete succeeds exactly in the Open
state and transitions to Deleted, and the Deleted state has no outgoing
transitions — no operation whatsoever can be applied to an adapter after
its delete (in Rust, the consumed value makes this unexpressible at compile
time). -/
theorem c3_delete_consumes_adapter :
    (∀ s, adapterStep s .delete = some .deleted ↔ s = .opened) ∧
    (∀ op, adapterStep .deleted op = none) := by
  constructor
  · intro s
    cases s <;> simp [adapterStep]
  · intro op
    cases op <;> rfl

/-- C4: dropping an Adapter without delete closes its driver handle but
leaves the adapter present in the OS pool, so a later open with the same
pool and name succeeds; after an explicit delete the same open fails with
not-found (and the handle is closed in both cases). -/
theorem c4_drop_vs_delete (os : OsState) (a : AdapterHandle)
    (h : (a.pool, a.name) ∈ os.pools) :
    openAdapter (dropAdapter os a) a.pool a.name = .ok () ∧
      (a.handle ∉ (dropAdapter os a).handles) ∧
      openAdapter (deleteAdapter os a) a.pool a.name = .error .notFound ∧
      (a.handle ∉ (deleteAdapter os a).handles) := by
  have hmem : (a.pool, a.name) ∉
      os.pools.filter (fun pn => pn ≠ (a.pool, a.name)) := by
    simp [List.mem_filter]
  refine ⟨?_, ?_, ?_, ?_⟩
  · simp [openAdapter, dropAdapter, h]
  · simp [dropAdapter, List.mem_filter]
  · simp only [openAdapter, deleteAdapter]
    rw [if_neg hmem]
  · simp [deleteAdapter, List.mem_filter]

/-- Witness for C4: the drop/delete contrast at a concrete one-adapter OS
state. -/
theorem c4_drop_vs_delete_witness :
    (wAdapter.pool, wAdapter.name) ∈ wOs.pools ∧
      openAdapter (dropAdapter wOs wAdapter) wAdapter.pool wAdapter.name =
        .ok () ∧
      openAdapter (deleteAdapter wOs wAdapter) wAdapter.pool wAdapter.name =
        .error .notFound :=
  ⟨by decide,
   (c4_drop_vs_delete wOs wAdapter (by decide)).1,
   (c4_drop_vs_delete wOs wAdapter (by decide)).2.2.1⟩

/-- C5: on an Open adapter, up() succeeds, enables the adapter, keeps the
lifecycle Open, and a second up() succeeds and returns the same state;
likewise down() disables and is idempotent. -/
theorem c5_up_down_idempotent (a : AdapterRuntime)
    (h : a.lifecycle = .opened) :
    (∃ a1, upAdapter a = .ok a1 ∧ a1.enabled = true ∧
       a1.lifecycle = .opened ∧ upAdapter a1 = .ok a1) ∧
    (∃ a2, downAdapter a = .ok a2 ∧ a2.enabled = false ∧
       a2.lifecycle = .opened ∧ downAdapter a2 = .ok a2) := by
  refine ⟨⟨⟨.opened, true⟩, ?_, rfl, rfl, ?_⟩,
          ⟨⟨.opened, false⟩, ?_, rfl, rfl, ?_⟩⟩ <;>
    simp [upAdapter, downAdapter, h]

/-- Witness for C5: idempotence of up/down at a concrete open adapter. -/
theorem c5_up_down_idempotent_witness :
    (⟨.opened, false⟩ : AdapterRuntime).lifecycle = .opened ∧
      ((∃ a1, upAdapter ⟨.opened, false⟩ = .ok a1 ∧ a1.enabled = true ∧
          a1.lifecycle = .opened ∧ upAdapter a1 = .ok a1) ∧
       (∃ a2, downAdapter ⟨.opened, false⟩ = .ok a2 ∧ a2.enabled = false ∧
          a2.lifecycle = .opened ∧ downAdapter a2 = .ok a2)) :=
  ⟨rfl, c5_up_down_idempotent ⟨.opened, false⟩ rfl⟩

/-- C7: create returns an error exactly when the driver refuses to allocate
(carrying the native code); every allocation — reboot-required or not —
is surfaced as the success value carrying the usable open adapter together
with the reboot-required signal, and up() applies to it immediately. -/
theorem c7_reboot_required_is_success :
    (∀ code, createAdapter (.refused code) = .error code) ∧
    (∀ hdl r, ∃ d, createAdapter (.allocated hdl r) = .ok d ∧
       d.rebootRequired = r ∧ d.adapter.lifecycle = .opened ∧
       ∃ a, upAdapter d.adapter = .ok a ∧ a.enabled = true) :=
  ⟨fun _ => rfl,
   fun _ r => ⟨⟨⟨.opened, false⟩, r⟩, rfl, rfl, rfl,
               ⟨.opened, true⟩, rfl, rfl⟩⟩

/-! ## Encode-side validity: malformed configurations never reach the
driver -/

theorem encodeAllowedIp_ok_cidr {ip : AllowedIp} {r : List Nat}
    (h : encodeAllowedIp ip = .ok r) :
    ip.cidr ≤ familyMaxCidr ip.family := by
  unfold encodeAllowedIp at h
  by_cases hc : familyMaxCidr ip.family < ip.cidr
  · rw [if_pos hc] at h; exact Except.noConfusion h
  · exact Nat.le_of_not_lt hc

theorem encodeAllowedIps_ok_cidr {ips : List AllowedIp} {r : List Nat}
    (h : encodeAllowedIps ips = .ok r) :
    ∀ ip ∈ ips, ip.cidr ≤ familyMaxCidr ip.family := by
  induction ips generalizing r with
  | nil => simp
  | cons ip ips ih =>
    simp only [encodeAllowedIps] at h
    cases h1 : encodeAllowedIp ip with
    | error e => simp only [h1] at h; exact Except.noConfusion h
    | ok r1 =>
      simp only [h1] at h
      cases h2 : encodeAllowedIps ips with
      | error e => simp only [h2] at h; exact Except.noConfusion h
      | ok r2 =>
        intro x hx
        rcases List.mem_cons.mp hx with rfl | hx
        · exact encodeAllowedIp_ok_cidr h1
        · exact ih h2 x hx

theorem encodePeer_ok_cidr {p : Peer} {r : List Nat}
    (h : encodePeer p = .ok r) :
    ∀ ip ∈ p.allowedIps, ip.cidr ≤ familyMaxCidr ip.family := by
  unfold encodePeer at h
  by_cases hpk : p.publicKey.length ≠ 32
  · rw [if_pos hpk] at h; exact Except.noConfusion h
  · rw [if_neg hpk] at h
    cases hpsk : p.presharedKey with
    | some k =>
      simp only [hpsk] at h
      by_cases hk : k.length ≠ 32
      · rw [if_pos hk] at h; exact Except.noConfusion h
      · rw [if_neg hk] at h
        cases hep : encodeEndpoint p.endpoint with
        | error e => simp only [hep] at h; exact Except.noConfusion h
        | ok ep =>
          simp only [hep] at h
          cases hips : encodeAllowedIps p.allowedIps with
          | error e => simp only [hips] at h; exact Except.noConfusion h
          | ok ips => exact encodeAllowedIps_ok_cidr hips
    | none =>
      simp only [hpsk] at h
      cases hep : encodeEndpoint p.endpoint with
      | error e => simp only [hep] at h; exact Except.noConfusion h
      | ok ep =>
        simp only [hep] at h
        cases hips : encodeAllowedIps p.allowedIps with
        | error e => simp only [hips] at h; exact Except.noConfusion h
        | ok ips => exact encodeAllowedIps_ok_cidr hips

theorem encodePeers_ok_cidr {ps : List Peer} {r : List Nat}
    (h : encodePeers ps = .ok r) :
    ∀ p ∈ ps, ∀ ip ∈ p.allowedIps, ip.cidr ≤ familyMaxCidr ip.family := by
  induction ps generalizing r with
  | nil => simp
  | cons p ps ih =>
    simp only [encodePeers] at h
    cases h1 : encodePeer p with
    | error e => simp only [h1] at h; exact Except.noConfusion h
    | ok r1 =>
      simp only [h1] at h
      cases h2 : encodePeers ps with
      | error e => simp only [h2] at h; exact Except.noConfusion h
      | ok r2 =>
        intro x hx
        rcases List.mem_cons.mp hx with rfl | hx
        · exact encodePeer_ok_cidr h1
        · exact ih h2 x hx

theorem encodeConfig_ok_cidr {c : Configuration} {r : List Nat}
    (h : encodeConfig c = .ok r) :
    ∀ p ∈ c.peers, ∀ ip ∈ p.allowedIps,
      ip.cidr ≤ familyMaxCidr ip.family := by
  unfold encodeConfig at h
  cases hpk : c.privateKey with
  | some k =>
    simp only [hpk] at h
    by_cases hk : k.length ≠ 32
    · rw [if_pos hk] at h; exact Except.noConfusion h
    · rw [if_neg hk] at h
      cases hps : encodePeers c.peers with
      | error e => simp only [hps] at h; exact Except.noConfusion h
      | ok r2 => exact encodePeers_ok_cidr hps
  | none =>
    simp only [hpk] at h
    cases hps : encodePeers c.peers with
    | error e => simp only [hps] at h; exact Except.noConfusion h
    | ok r2 => exact encodePeers_ok_cidr hps

/-- C6: a Configuration containing an AllowedIP whose prefix length exceeds
its address family's maximum is rejected by the encoder with a codec error,
and set_config on it fails with that codec error without invoking the
driver: the driver-call log is unchanged for every driver behavior and
state. -/
theorem c6_invalid_cidr_rejected_before_driver (c : Configuration)
    (h : ∃ p ∈ c.peers, ∃ ip ∈ p.allowedIps,
           familyMaxCidr ip.family < ip.cidr) :
    ∃ e, encodeConfig c = .error e ∧
      ∀ drv d, setConfig drv d c = (.error (.codec e), d) := by
  cases he : encodeConfig c with
  | ok r =>
    obtain ⟨p, hp, ip, hip, hbad⟩ := h
    exact absurd (encodeConfig_ok_cidr he p hp ip hip)
      (Nat.not_le_of_lt hbad)
  | error e =>
    refine ⟨e, rfl, fun drv d => ?_⟩
    simp [setConfig, he]

/-- Witness for C6: a configuration with a 33-bit IPv4 prefix is rejected
before the driver call. -/
theorem c6_invalid_cidr_rejected_before_driver_witness :
    (∃ p ∈ wBadConfig.peers, ∃ ip ∈ p.allowedIps,
       familyMaxCidr ip.family < ip.cidr) ∧
      ∃ e, encodeConfig wBadConfig = .error e ∧
        ∀ drv d, setConfig drv d wBadConfig = (.error (.codec e), d) :=
  ⟨by decide, c6_invalid_cidr_rejected_before_driver wBadConfig (by decide)⟩

/-! ## Library loader properties -/

/-- C8: each loader either succeeds with a freshly allocated shared handle
(strong count one) around exactly the table the underlying loader resolved,
or fails with the library-loading error the underlying loader produced —
an error type whose only inhabitants are dynamic-load failure and missing
symbol; and the shared handle is immutable under clone, is destroyed only
when the last strong reference drops, and survives a drop with its value
intact otherwise. -/
theorem c8_loaders_arc_or_error (env : ProcessEnv) (path : String)
    (exports : List (String × Nat)) :
    ((∃ d, wireguardNew env path = .ok d ∧
        load_from_path env path = .ok (arcNew d) ∧ (arcNew d).strong = 1) ∨
     (∃ e, wireguardNew env path = .error e ∧
        load_from_path env path = .error e)) ∧
    ((∃ d, wireguardFromLibrary exports = .ok d ∧
        load_from_library exports = .ok (arcNew d)) ∨
     (∃ e, wireguardFromLibrary exports = .error e ∧
        load_from_library exports = .error e)) ∧
    (∀ e : LibloadingError,
       (∃ p, e = .dlOpenFailed p) ∨ (∃ s, e = .symbolNotFound s)) ∧
    (∀ a : Arc Dll, (arcClone a).value = a.value ∧
       (arcDrop a = none ↔ a.strong ≤ 1) ∧
       ∀ a', arcDrop a = some a' → a'.value = a.value) := by
  refine ⟨?_, ?_, ?_, ?_⟩
  · cases hn : wireguardNew env path with
    | ok d => exact Or.inl ⟨d, rfl, by simp [load_from_path, hn], rfl⟩
    | error e => exact Or.inr ⟨e, rfl, by simp [load_from_path, hn]⟩
  · cases hn : wireguardFromLibrary exports with
    | ok d => exact Or.inl ⟨d, rfl, by simp [load_from_library, hn]⟩
    | error e => exact Or.inr ⟨e, rfl, by simp [load_from_library, hn]⟩
  · intro e
    cases e with
    | dlOpenFailed p => exact Or.inl ⟨p, rfl⟩
    | symbolNotFound s => exact Or.inr ⟨s, rfl⟩
  · intro a
    refine ⟨rfl, ?_, ?_⟩
    · unfold arcDrop
      by_cases hs : a.strong ≤ 1
      · simp [hs]
      · simp [hs]
    · intro a' ha
      unfold arcDrop at ha
      by_cases hs : a.strong ≤ 1
      · rw [if_pos hs] at ha; exact Option.noConfusion ha
      · rw [if_neg hs] at ha
        simp only [Option.some.injEq] at ha
        rw [← ha]

/-- Witness for C8: dropping one of two strong references to a loaded table
keeps the value alive and intact. -/
theorem c8_loaders_arc_or_error_witness :
    arcDrop (arcClone (arcNew wDll)) = some (arcNew wDll) ∧
      (arcNew wDll).value = (arcClone (arcNew wDll)).value :=
  ⟨by decide,
   ((c8_loaders_arc_or_error wEnv "wireguard" wExports).2.2.2
       (arcClone (arcNew wDll))).2.2 (arcNew wDll) (by decide)⟩

/-- C9: pool names are accepted only when bounded by the maximum pool-name
size constant MAX_POOL, and MAX_POOL equals 256. -/
theorem c9_pool_name_bounded :
    MAX_POOL = 256 ∧
      ∀ s t, checkPoolName s = some t → s.length ≤ MAX_POOL := by
  refine ⟨rfl, fun s t h => ?_⟩
  unfold checkPoolName at h
  by_cases hs : s.length < MAX_POOL
  · omega
  · rw [if_neg hs] at h; exact Option.noConfusion h

/-- Witness for C9: the bound applied to the accepted pool name
"WireGuard". -/
theorem c9_pool_name_bounded_witness :
    checkPoolName "WireGuard" = some "WireGuard" ∧
      ("WireGuard".length ≤ MAX_POOL ∧ MAX_POOL = 256) :=
  ⟨by decide,
   (c9_pool_name_bounded).2 "WireGuard" "WireGuard" (by decide),
   (c9_pool_name_bounded).1⟩

/-- C10: load() is exactly load_from_path applied to the literal library
name "wireguard": both produce the same result in every process
environment. -/
theorem c10_load_is_load_from_path :
    ∀ env : ProcessEnv, load env = load_from_path env "wireguard" :=
  fun _ => rfl

end WireguardNt
